import Mathlib

/-!
Verification development for the keyword Classification & Sensitivity Engine
of the cursor-database analyzer scripts.

Strings are embedded as lists of characters; values read from the store are
embedded as `Option (List Char)` (`none` is SQL NULL).  Python truthiness of
a string value (`if value:`) is `some s` with `s ≠ []`.  All definitions are
transcribed from the Python sources (`keyword_analyzer.py`,
`keyword_analyzer_optimized.py`, `advanced_analyzer.py`,
`flexible_keyword_analyzer.py`); the few definitions that instead transcribe
a sentence of the specification (needed to state counterexamples) say so in
their doc comment.
-/

namespace CursorAnalyzer

/-- ASCII lowercasing of one character, the coercion used by Python's
`.lower()` on the ASCII keywords and values handled here. -/
def lowerChar (c : Char) : Char :=
  if 65 ≤ c.toNat ∧ c.toNat ≤ 90 then Char.ofNat (c.toNat + 32) else c

/-- Lowercase a string (`str.lower()`). -/
def lowerStr (s : List Char) : List Char := s.map lowerChar

/-- `startsWithChars needle hay` is true when `needle` is an initial segment
of `hay`. -/
def startsWithChars : List Char → List Char → Bool
  | [], _ => true
  | _ :: _, [] => false
  | a :: as, b :: bs => a == b && startsWithChars as bs

/-- `containsSub hay needle` is Python's substring test `needle in hay`. -/
def containsSub (hay needle : List Char) : Bool :=
  match hay with
  | [] => startsWithChars needle []
  | _ :: t => startsWithChars needle hay || containsSub t needle

theorem startsWithChars_iff (n h : List Char) :
    startsWithChars n h = true ↔ List.IsPrefix n h := by
  induction n generalizing h with
  | nil => simp [startsWithChars]
  | cons a as ih =>
    cases h with
    | nil => simp [startsWithChars]
    | cons b bs =>
      simp only [startsWithChars, Bool.and_eq_true, beq_iff_eq, ih]
      constructor
      · rintro ⟨rfl, t, rfl⟩
        exact ⟨t, rfl⟩
      · rintro ⟨t, ht⟩
        injection ht with h1 h2
        subst h1
        exact ⟨rfl, t, h2⟩

/-- The executable substring test agrees with the mathematical infix
relation, so `containsSub` is a faithful rendering of the specification's
"is a substring of". -/
theorem containsSub_iff (h n : List Char) :
    containsSub h n = true ↔ List.IsInfix n h := by
  induction h with
  | nil =>
    simp only [containsSub, startsWithChars_iff]
    constructor
    · intro hp
      exact hp.isInfix
    · intro hi
      exact (List.infix_nil.mp hi) ▸ List.nil_prefix
  | cons c t ih =>
    simp only [containsSub, Bool.or_eq_true, startsWithChars_iff, ih]
    exact Iff.symm List.infix_cons_iff

/-! ## Data model -/

/-- A raw field value: SQL NULL or text. -/
abbrev Value := Option (List Char)

/-- A record: one row as an ordered column-name/value mapping
(`match_data['data']` in the sources). -/
abbrev Record := List (List Char × Value)

/-- Sensitivity tier, the `'high'/'medium'/'low'` strings of the sources. -/
inductive Sens where
  | high
  | medium
  | low
deriving DecidableEq, Repr, BEq

/-- A taxonomy category: a name and its literal keyword list
(`self.target_keywords` entries; the `patterns` / `priority` entries are
not consumed by the classification logic under verification, only by the
optional regex pass and by dead SQL indicator columns, so they are not
modelled). -/
structure Category where
  name : List Char
  keywords : List (List Char)
deriving DecidableEq, Repr

/-- One classification result (`match_data` in the sources). -/
structure MatchData where
  table : List Char
  category : List Char
  columns : List (List Char)
  data : Record
  matched_keywords : List (List Char)
  sensitivity : Sens
deriving DecidableEq, Repr

/-- The base taxonomy of `KeywordAnalyzer.target_keywords`
(`keyword_analyzer.py`), in declaration order. -/
def authenticationCat : Category :=
  { name := "authentication".data,
    keywords := ["token".data, "auth".data, "login".data, "logout".data,
                 "credential".data, "password".data, "session".data] }

def subscriptionCat : Category :=
  { name := "subscription".data,
    keywords := ["pro".data, "plan".data, "subscription".data, "trial".data,
                 "premium".data, "paid".data, "billing".data] }

def aiFeaturesCat : Category :=
  { name := "ai_features".data,
    keywords := ["max mode".data, "ai".data, "model".data, "chat".data,
                 "composer".data, "copilot".data] }

def accountStatusCat : Category :=
  { name := "account_status".data,
    keywords := ["status".data, "active".data, "inactive".data,
                 "enabled".data, "disabled".data, "banned".data] }

def blackboxCat : Category :=
  { name := "blackbox_specific".data,
    keywords := ["blackbox".data, "blackboxai".data, "blackboxapp".data] }

def usageLimitsCat : Category :=
  { name := "usage_limits".data,
    keywords := ["limit".data, "quota".data, "usage".data,
                 "remaining".data, "consumed".data] }

def targetKeywords : List Category :=
  [authenticationCat, subscriptionCat, aiFeaturesCat, accountStatusCat,
   blackboxCat, usageLimitsCat]

/-- The taxonomy of `OptimizedKeywordAnalyzer.target_keywords`
(`keyword_analyzer_optimized.py`); keyword lists and order differ slightly
from the base taxonomy. -/
def authenticationCatOpt : Category :=
  { name := "authentication".data,
    keywords := ["token".data, "auth".data, "credential".data,
                 "password".data, "session".data, "login".data] }

def subscriptionCatOpt : Category :=
  { name := "subscription".data,
    keywords := ["pro".data, "plan".data, "subscription".data, "trial".data,
                 "premium".data, "billing".data] }

def aiFeaturesCatOpt : Category :=
  { name := "ai_features".data,
    keywords := ["ai".data, "model".data, "chat".data, "composer".data,
                 "copilot".data, "max mode".data] }

def accountStatusCatOpt : Category :=
  { name := "account_status".data,
    keywords := ["status".data, "active".data, "enabled".data,
                 "disabled".data] }

def blackboxCatOpt : Category :=
  { name := "blackbox_specific".data,
    keywords := ["blackbox".data, "blackboxai".data, "blackboxapp".data] }

def usageLimitsCatOpt : Category :=
  { name := "usage_limits".data,
    keywords := ["limit".data, "quota".data, "usage".data,
                 "remaining".data] }

def targetKeywordsOpt : List Category :=
  [authenticationCatOpt, subscriptionCatOpt, aiFeaturesCatOpt,
   accountStatusCatOpt, blackboxCatOpt, usageLimitsCatOpt]

/-- The three sensitivity keyword sets (`self.sensitive_categories`). -/
def highSensitive : List (List Char) :=
  ["token".data, "password".data, "key".data, "secret".data,
   "credential".data]

def mediumSensitive : List (List Char) :=
  ["userid".data, "email".data, "api".data, "auth".data]

/-- High-sensitivity keywords of
`OptimizedKeywordAnalyzer._determine_sensitivity_fast`, which additionally
lists `auth`. -/
def highSensitiveFast : List (List Char) :=
  ["token".data, "password".data, "key".data, "secret".data,
   "credential".data, "auth".data]

def mediumSensitiveFast : List (List Char) :=
  ["userid".data, "email".data, "api".data]

/-! ## Keyword matching (the classifier core)

`addKeywords` is the inner loop of `_search_in_table` / `_process_batch`:
for one truthy field value it walks the category's keywords in declaration
order and appends every keyword occurring (case-insensitively) in the value
that is not already recorded.  `matchedKeywords` walks the record's fields
in order, skipping falsy (null or empty) values. -/

def addKeywords (s : List Char) : List (List Char) → List (List Char) → List (List Char)
  | [], acc => acc
  | kw :: kws, acc =>
    if containsSub (lowerStr s) (lowerStr kw) && !(acc.contains kw) then
      addKeywords s kws (acc ++ [kw])
    else
      addKeywords s kws acc

def matchedKeywordsAux (kws : List (List Char)) : Record → List (List Char) → List (List Char)
  | [], acc => acc
  | (_, none) :: rest, acc => matchedKeywordsAux kws rest acc
  | (_, some s) :: rest, acc =>
    if s.isEmpty then matchedKeywordsAux kws rest acc
    else matchedKeywordsAux kws rest (addKeywords s kws acc)

def matchedKeywords (kws : List (List Char)) (r : Record) : List (List Char) :=
  matchedKeywordsAux kws r []

/-- The SQL row filter of `_search_in_table`: the row is selected when any
column's lowered text contains any keyword
(`LOWER(col) LIKE '%keyword%'`, OR-joined; NULL columns never match). -/
def sqlRowSelected (kws : List (List Char)) (r : Record) : Bool :=
  kws.any fun kw => r.any fun cv =>
    match cv.2 with
    | none => false
    | some s => containsSub (lowerStr s) (lowerStr kw)

/-! ## Sensitivity derivation -/

/-- The search blob of `KeywordAnalyzer._determine_sensitivity`: for each
truthy field the code appends a space, the column name, a space and the
value (Python skips null and empty values via `if value:`). -/
def sensBlob (r : Record) : List Char :=
  r.foldl
    (fun acc cv =>
      match cv.2 with
      | none => acc
      | some s => if s.isEmpty then acc else acc ++ ' ' :: cv.1 ++ ' ' :: s)
    []

/-- `KeywordAnalyzer._determine_sensitivity`: lowercase the blob, return
high on the first high-sensitivity keyword found, else medium on the first
medium-sensitivity keyword, else low. -/
def determineSensitivity (r : Record) : Sens :=
  let t := lowerStr (sensBlob r)
  if highSensitive.any (fun kw => containsSub t kw) then .high
  else if mediumSensitive.any (fun kw => containsSub t kw) then .medium
  else .low

/-- The joined data string of
`OptimizedKeywordAnalyzer._determine_sensitivity_fast`:
truthy row values joined with single spaces, truncated to 500 characters,
then lowercased. -/
def fastDataStr (row : List Value) : List Char :=
  lowerStr
    ((((row.filterMap fun v =>
          match v with
          | none => none
          | some s => if s.isEmpty then none else some s).intersperse
        [' ']).flatten).take 500)

/-- `OptimizedKeywordAnalyzer._determine_sensitivity_fast`: first high if
any matched keyword contains a high-sensitivity keyword, then high/medium
from the truncated data string, else low. -/
def determineSensitivityFast (mks : List (List Char)) (row : List Value) : Sens :=
  if mks.any (fun kw => highSensitiveFast.any fun s => containsSub (lowerStr kw) s) then
    .high
  else
    let dataStr := fastDataStr row
    if highSensitiveFast.any (fun s => containsSub dataStr s) then .high
    else if mediumSensitiveFast.any (fun kw => containsSub dataStr kw) then .medium
    else .low

/-! ## Per-row classification -/

/-- The match entry built by `KeywordAnalyzer._search_in_table` for one
SQL-selected row. -/
def mkMatchBase (cfg : Category) (tn : List Char) (r : Record) : MatchData :=
  { table := tn
    category := cfg.name
    columns := r.map Prod.fst
    data := r
    matched_keywords := matchedKeywords cfg.keywords r
    sensitivity := determineSensitivity r }

/-- Row classification of `KeywordAnalyzer._search_in_table`: a match entry
is produced exactly for the rows selected by the category's SQL query. -/
def classifyBase (cfg : Category) (tn : List Char) (r : Record) : Option MatchData :=
  if sqlRowSelected cfg.keywords r then some (mkMatchBase cfg tn r) else none

/-- Row classification of `OptimizedKeywordAnalyzer._process_batch`: every
row is inspected in Python and an entry is produced iff some keyword
matched; sensitivity uses the fast path. -/
def classifyOpt (cfg : Category) (tn : List Char) (r : Record) : Option MatchData :=
  let mks := matchedKeywords cfg.keywords r
  if mks.isEmpty then none
  else
    some
      { table := tn
        category := cfg.name
        columns := r.map Prod.fst
        data := r
        matched_keywords := mks
        sensitivity := determineSensitivityFast mks (r.map Prod.snd) }

/-! ## Redaction (`AdvancedKeywordAnalyzer._censor_sensitive_data`) -/

def censorLong : List Char := "***[SENSITIVE DATA CENSORED]***".data

def censorShort : List Char := "***[CENSORED]***".data

/-- One field of `_censor_sensitive_data`: null passes through first; a
field whose lowered column name contains a high-sensitivity keyword is
masked by length band; every other field passes through. -/
def censorField (k : List Char) (v : Value) : Value :=
  match v with
  | none => none
  | some s =>
    if highSensitive.any (fun sens => containsSub (lowerStr k) sens) then
      if 20 < s.length then
        some (s.take 10 ++ censorLong ++ s.drop (s.length - 5))
      else if 10 < s.length then
        some (s.take 5 ++ censorShort)
      else
        some censorShort
    else
      some s

def censorSensitiveData (d : Record) : Record :=
  d.map fun kv => (kv.1, censorField kv.1 kv.2)

/-! ## Lemmas about keyword matching -/

theorem contains_iff_mem (l : List (List Char)) (a : List Char) :
    l.contains a = true ↔ a ∈ l := by
  simp [List.contains]

theorem mem_addKeywords (s k : List Char) :
    ∀ (kws acc : List (List Char)),
      (k ∈ addKeywords s kws acc ↔
        k ∈ acc ∨ (k ∈ kws ∧ containsSub (lowerStr s) (lowerStr k) = true)) := by
  intro kws
  induction kws with
  | nil => intro acc; simp [addKeywords]
  | cons kw kws ih =>
    intro acc
    unfold addKeywords
    by_cases h : (containsSub (lowerStr s) (lowerStr kw) && !(acc.contains kw)) = true
    · rw [if_pos h, ih]
      have hP : containsSub (lowerStr s) (lowerStr kw) = true := by
        have h' := h
        simp only [Bool.and_eq_true] at h'
        exact h'.1
      simp only [List.mem_append, List.mem_cons]
      constructor
      · rintro ((hk | (rfl | hnil)) | ⟨hm, hPk⟩)
        · exact Or.inl hk
        · exact Or.inr ⟨Or.inl rfl, hP⟩
        · exact absurd hnil (List.not_mem_nil k)
        · exact Or.inr ⟨Or.inr hm, hPk⟩
      · rintro (hk | ⟨(rfl | hm), hPk⟩)
        · exact Or.inl (Or.inl hk)
        · exact Or.inl (Or.inr (Or.inl rfl))
        · exact Or.inr ⟨hm, hPk⟩
    · rw [if_neg h, ih]
      simp only [List.mem_cons]
      constructor
      · rintro (hk | ⟨hm, hPk⟩)
        · exact Or.inl hk
        · exact Or.inr ⟨Or.inr hm, hPk⟩
      · rintro (hk | ⟨(rfl | hm), hPk⟩)
        · exact Or.inl hk
        · left
          by_cases hc : acc.contains k = true
          · exact (contains_iff_mem acc k).mp hc
          · exfalso
            apply h
            have hcf : acc.contains k = false := by
              cases hcb : acc.contains k
              · rfl
              · exact absurd hcb hc
            rw [hPk, hcf]
            rfl
        · exact Or.inr ⟨hm, hPk⟩

theorem addKeywords_nodup (s : List Char) :
    ∀ (kws acc : List (List Char)), acc.Nodup → (addKeywords s kws acc).Nodup := by
  intro kws
  induction kws with
  | nil => intro acc h; exact h
  | cons kw kws ih =>
    intro acc h
    unfold addKeywords
    by_cases hc : (containsSub (lowerStr s) (lowerStr kw) && !(acc.contains kw)) = true
    · rw [if_pos hc]
      refine ih _ ?_
      have hnc : (!(acc.contains kw)) = true := by
        have h' := hc
        simp only [Bool.and_eq_true] at h'
        exact h'.2
      have hnm : kw ∉ acc := by
        intro hm
        rw [(contains_iff_mem acc kw).mpr hm] at hnc
        simp at hnc
      simp [List.nodup_append, h, hnm]
    · rw [if_neg hc]
      exact ih _ h

theorem mem_matchedKeywordsAux_mp (kws : List (List Char)) (k : List Char) :
    ∀ (r : Record) (acc : List (List Char)),
      k ∈ matchedKeywordsAux kws r acc →
      k ∈ acc ∨ (k ∈ kws ∧ ∃ c s, (c, some s) ∈ r ∧
        containsSub (lowerStr s) (lowerStr k) = true) := by
  intro r
  induction r with
  | nil => intro acc h; exact Or.inl h
  | cons cv rest ih =>
    obtain ⟨c, v⟩ := cv
    cases v with
    | none =>
      intro acc h
      rcases ih acc h with h0 | ⟨hm, c', s', hmem, hsub⟩
      · exact Or.inl h0
      · exact Or.inr ⟨hm, c', s', List.mem_cons_of_mem _ hmem, hsub⟩
    | some s =>
      intro acc h
      unfold matchedKeywordsAux at h
      by_cases he : s.isEmpty
      · rw [if_pos he] at h
        rcases ih acc h with h0 | ⟨hm, c', s', hmem, hsub⟩
        · exact Or.inl h0
        · exact Or.inr ⟨hm, c', s', List.mem_cons_of_mem _ hmem, hsub⟩
      · rw [if_neg he] at h
        rcases ih _ h with h0 | ⟨hm, c', s', hmem, hsub⟩
        · rcases (mem_addKeywords s k kws acc).mp h0 with h1 | ⟨hm, hsub⟩
          · exact Or.inl h1
          · exact Or.inr ⟨hm, c, s, List.mem_cons_self _ _, hsub⟩
        · exact Or.inr ⟨hm, c', s', List.mem_cons_of_mem _ hmem, hsub⟩

theorem mem_matchedKeywordsAux_mpr (kws : List (List Char)) (k : List Char)
    (hk : k ≠ []) :
    ∀ (r : Record) (acc : List (List Char)),
      (k ∈ acc ∨ (k ∈ kws ∧ ∃ c s, (c, some s) ∈ r ∧
        containsSub (lowerStr s) (lowerStr k) = true)) →
      k ∈ matchedKeywordsAux kws r acc := by
  intro r
  induction r with
  | nil =>
    intro acc h
    rcases h with h0 | ⟨_, _, _, hmem, _⟩
    · exact h0
    · simp at hmem
  | cons cv rest ih =>
    obtain ⟨c, v⟩ := cv
    cases v with
    | none =>
      intro acc h
      show k ∈ matchedKeywordsAux kws rest acc
      refine ih acc ?_
      rcases h with h0 | ⟨hm, c', s', hmem, hsub⟩
      · exact Or.inl h0
      · rcases List.mem_cons.mp hmem with heq | hmem'
        · exact absurd (congrArg Prod.snd heq) (by simp)
        · exact Or.inr ⟨hm, c', s', hmem', hsub⟩
    | some s =>
      intro acc h
      unfold matchedKeywordsAux
      by_cases he : s.isEmpty
      · rw [if_pos he]
        refine ih acc ?_
        rcases h with h0 | ⟨hm, c', s', hmem, hsub⟩
        · exact Or.inl h0
        · rcases List.mem_cons.mp hmem with heq | hmem'
          · exfalso
            have hs' : s' = s := by
              have := congrArg Prod.snd heq
              simpa using this
            have hsnil : s = [] := List.isEmpty_iff.mp he
            rw [hs', hsnil] at hsub
            have hlk : lowerStr k ≠ [] := by
              cases k with
              | nil => exact absurd rfl hk
              | cons a as => simp [lowerStr]
            cases hlkc : lowerStr k with
            | nil => exact hlk hlkc
            | cons a as =>
              rw [hlkc] at hsub
              simp [lowerStr, containsSub, startsWithChars] at hsub
          · exact Or.inr ⟨hm, c', s', hmem', hsub⟩
      · rw [if_neg he]
        rcases h with h0 | ⟨hm, c', s', hmem, hsub⟩
        · exact ih _ (Or.inl ((mem_addKeywords s k kws acc).mpr (Or.inl h0)))
        · rcases List.mem_cons.mp hmem with heq | hmem'
          · have hs' : s' = s := by
              have := congrArg Prod.snd heq
              simpa using this
            rw [hs'] at hsub
            exact ih _ (Or.inl ((mem_addKeywords s k kws acc).mpr (Or.inr ⟨hm, hsub⟩)))
          · exact ih _ (Or.inr ⟨hm, c', s', hmem', hsub⟩)

theorem matchedKeywordsAux_nodup (kws : List (List Char)) :
    ∀ (r : Record) (acc : List (List Char)), acc.Nodup →
      (matchedKeywordsAux kws r acc).Nodup := by
  intro r
  induction r with
  | nil => intro acc h; exact h
  | cons cv rest ih =>
    obtain ⟨c, v⟩ := cv
    cases v with
    | none => intro acc h; exact ih acc h
    | some s =>
      intro acc h
      unfold matchedKeywordsAux
      by_cases he : s.isEmpty
      · rw [if_pos he]; exact ih acc h
      · rw [if_neg he]; exact ih _ (addKeywords_nodup s kws acc h)

/-- Evidence characterisation: a keyword appears in `matchedKeywords` iff
it belongs to the category's list and occurs (case-insensitively) in some
field value of the record. -/
theorem mem_matchedKeywords (kws : List (List Char)) (k : List Char) (r : Record)
    (hk : k ≠ []) :
    k ∈ matchedKeywords kws r ↔
      (k ∈ kws ∧ ∃ c s, (c, some s) ∈ r ∧
        containsSub (lowerStr s) (lowerStr k) = true) := by
  unfold matchedKeywords
  constructor
  · intro h
    rcases mem_matchedKeywordsAux_mp kws k r [] h with h0 | h1
    · simp at h0
    · exact h1
  · intro h
    exact mem_matchedKeywordsAux_mpr kws k hk r [] (Or.inr h)

theorem matchedKeywords_nodup (kws : List (List Char)) (r : Record) :
    (matchedKeywords kws r).Nodup :=
  matchedKeywordsAux_nodup kws r [] List.nodup_nil

theorem sqlRowSelected_iff (kws : List (List Char)) (r : Record) :
    sqlRowSelected kws r = true ↔
      ∃ kw ∈ kws, ∃ c s, (c, some s) ∈ r ∧
        containsSub (lowerStr s) (lowerStr kw) = true := by
  unfold sqlRowSelected
  simp only [List.any_eq_true]
  constructor
  · rintro ⟨kw, hkw, cv, hcv, h⟩
    obtain ⟨c, v⟩ := cv
    cases v with
    | none => simp at h
    | some s => exact ⟨kw, hkw, c, s, hcv, h⟩
  · rintro ⟨kw, hkw, c, s, hcv, h⟩
    exact ⟨kw, hkw, (c, some s), hcv, h⟩

theorem classifyBase_isSome (cfg : Category) (tn : List Char) (r : Record) :
    (classifyBase cfg tn r).isSome = true ↔
      sqlRowSelected cfg.keywords r = true := by
  unfold classifyBase
  by_cases h : sqlRowSelected cfg.keywords r = true
  · simp [h]
  · simp [h]

theorem classifyOpt_isSome (cfg : Category) (tn : List Char) (r : Record) :
    (classifyOpt cfg tn r).isSome = true ↔
      matchedKeywords cfg.keywords r ≠ [] := by
  unfold classifyOpt
  by_cases h : (matchedKeywords cfg.keywords r).isEmpty
  · simp [h, List.isEmpty_iff.mp h]
  · simp only [h, Bool.false_eq_true, if_false, Option.isSome_some, true_iff]
    intro hnil
    rw [hnil] at h
    simp at h

/-- Every keyword of both taxonomies is a nonempty string. -/
theorem taxonomy_keywords_ne_nil :
    ∀ cfg ∈ targetKeywords ++ targetKeywordsOpt, ∀ kw ∈ cfg.keywords, kw ≠ [] := by
  decide

/-! ## Claim C1 -/

/-- Modelled from the claim wording of C1 only (not from the sources): the
concatenation of the record's non-null field values. -/
def valueConcatSpec (r : Record) : List Char :=
  r.foldl
    (fun acc cv =>
      match cv.2 with
      | none => acc
      | some s => acc ++ s)
    []

def rSplit : Record := [("a".data, some "tok".data), ("b".data, some "en".data)]

/-- C1 is false as stated: in the record `rSplit` the keyword `token` of
the authentication category is a case-insensitive substring of the
concatenation of the non-null field values (`tok` then `en`), yet neither
classifier produces a Match for the pair, because matching is per-field and
no single field contains any authentication keyword. -/
theorem C1_counterexample :
    "token".data ∈ authenticationCat.keywords
    ∧ containsSub (lowerStr (valueConcatSpec rSplit)) (lowerStr "token".data) = true
    ∧ classifyBase authenticationCat "t".data rSplit = none
    ∧ classifyOpt authenticationCatOpt "t".data rSplit = none := by
  decide

/-- C1 (amended): for every record R and taxonomy category C, the
classifier (both the base `_search_in_table` row logic and the optimized
`_process_batch` logic) produces a Match for (R, C) iff at least one
keyword of C is a case-insensitive substring of some single non-null field
value of R; and `matched_keywords` is exactly the duplicate-free list of
C's keywords occurring case-insensitively in some field of R. -/
theorem C1_classifier_completeness (cfg : Category) (tn : List Char) (r : Record)
    (hC : cfg ∈ targetKeywords ++ targetKeywordsOpt) :
    ((classifyBase cfg tn r).isSome = true ↔
      ∃ kw ∈ cfg.keywords, ∃ c s, (c, some s) ∈ r ∧
        containsSub (lowerStr s) (lowerStr kw) = true)
    ∧ ((classifyOpt cfg tn r).isSome = true ↔
      ∃ kw ∈ cfg.keywords, ∃ c s, (c, some s) ∈ r ∧
        containsSub (lowerStr s) (lowerStr kw) = true)
    ∧ (matchedKeywords cfg.keywords r).Nodup
    ∧ (∀ kw, kw ∈ matchedKeywords cfg.keywords r ↔
        (kw ∈ cfg.keywords ∧ ∃ c s, (c, some s) ∈ r ∧
          containsSub (lowerStr s) (lowerStr kw) = true)) := by
  refine ⟨(classifyBase_isSome cfg tn r).trans (sqlRowSelected_iff _ r), ?_, matchedKeywords_nodup _ r, ?_⟩
  · rw [classifyOpt_isSome]
    constructor
    · intro hne
      obtain ⟨k, hk⟩ := List.exists_mem_of_ne_nil _ hne
      rcases mem_matchedKeywordsAux_mp cfg.keywords k r [] hk with h0 | ⟨hm, c, s, hmem, hsub⟩
      · simp at h0
      · exact ⟨k, hm, c, s, hmem, hsub⟩
    · rintro ⟨kw, hkw, c, s, hmem, hsub⟩
      have hkne : kw ≠ [] := taxonomy_keywords_ne_nil cfg hC kw hkw
      have : kw ∈ matchedKeywords cfg.keywords r :=
        (mem_matchedKeywords cfg.keywords kw r hkne).mpr ⟨hkw, c, s, hmem, hsub⟩
      exact List.ne_nil_of_mem this
  · intro kw
    by_cases hmem : kw ∈ cfg.keywords
    · exact mem_matchedKeywords cfg.keywords kw r (taxonomy_keywords_ne_nil cfg hC kw hmem)
    · constructor
      · intro h
        rcases mem_matchedKeywordsAux_mp cfg.keywords kw r [] h with h0 | ⟨hm, _⟩
        · simp at h0
        · exact absurd hm hmem
      · rintro ⟨hm, _⟩
        exact absurd hm hmem

/-- The two-row end-to-end record of the specification, row 1. -/
def rAuth : Record :=
  [("key".data, some "auth_token".data),
   ("value".data, some "Bearer abc123xyz789secretvalue".data)]

/-- Witness instantiating `C1_classifier_completeness` at the
authentication category and a concrete record. -/
theorem C1_classifier_completeness_witness :
    authenticationCat ∈ targetKeywords ++ targetKeywordsOpt
    ∧ (matchedKeywords authenticationCat.keywords rAuth).Nodup :=
  ⟨by decide,
   (C1_classifier_completeness authenticationCat "ItemTable".data rAuth (by decide)).2.2.1⟩

/-! ## Claim C2 -/

/-- Modelled from the claim wording of C2 only (not from the sources): the
blob of all non-null field values together with their column names, in the
format `_determine_sensitivity` uses, but without Python's truthiness
filter, so that empty-string (non-null) fields also contribute. -/
def nonNullBlobSpec (r : Record) : List Char :=
  r.foldl
    (fun acc cv =>
      match cv.2 with
      | none => acc
      | some s => acc ++ ' ' :: cv.1 ++ ' ' :: s)
    []

def rEmptyToken : Record := [("token".data, some [])]

/-- C2 is false as stated: record `rEmptyToken` has one non-null field
whose column name is `token`, so the claim's blob of non-null field values
and column names contains the high-sensitivity keyword `token`; but the
code skips empty-string values entirely (`if value:`), so the derived tier
is low, not high. -/
theorem C2_counterexample :
    "token".data ∈ highSensitive
    ∧ containsSub (lowerStr (nonNullBlobSpec rEmptyToken)) "token".data = true
    ∧ determineSensitivity rEmptyToken = Sens.low
    ∧ determineSensitivity rEmptyToken ≠ Sens.high := by
  decide

/-- C2 (amended): for every record whose concatenated non-null, non-empty
field values (together with column names), lowercased, contain at least one
high-sensitivity keyword, `_determine_sensitivity` returns high, regardless
of any medium-sensitivity keywords — high is checked before medium and the
first match wins. -/
theorem C2_sensitivity_priority (r : Record)
    (h : highSensitive.any (fun kw => containsSub (lowerStr (sensBlob r)) kw) = true) :
    determineSensitivity r = Sens.high := by
  unfold determineSensitivity
  rw [if_pos h]

/-- Witness: a record containing both the high keyword `token` and the
medium keyword `email` is tiered high. -/
theorem C2_sensitivity_priority_witness :
    highSensitive.any
      (fun kw => containsSub (lowerStr (sensBlob [("c".data, some "token email".data)])) kw) = true
    ∧ determineSensitivity [("c".data, some "token email".data)] = Sens.high :=
  ⟨by decide, C2_sensitivity_priority [("c".data, some "token email".data)] (by decide)⟩

/-! ## Claim C3 -/

/-- C3: in `_censor_sensitive_data`, a field whose column name contains a
high-sensitivity keyword is redacted by length band — more than 20
characters keeps the first 10 and last 5 around the long marker, lengths in
(10, 20] keep the first 5 before the short marker, lengths up to 10 are
replaced by the bare marker — and a null value passes through as null; the
equations are stated inside an arbitrary surrounding record. -/
theorem C3_redaction_length_bands (k : List Char)
    (hk : highSensitive.any (fun sens => containsSub (lowerStr k) sens) = true) :
    (∀ (d₁ d₂ : Record) (s : List Char), 20 < s.length →
      censorSensitiveData (d₁ ++ (k, some s) :: d₂)
        = censorSensitiveData d₁
          ++ (k, some (s.take 10 ++ censorLong ++ s.drop (s.length - 5))) :: censorSensitiveData d₂)
    ∧ (∀ (d₁ d₂ : Record) (s : List Char), 10 < s.length → s.length ≤ 20 →
      censorSensitiveData (d₁ ++ (k, some s) :: d₂)
        = censorSensitiveData d₁
          ++ (k, some (s.take 5 ++ censorShort)) :: censorSensitiveData d₂)
    ∧ (∀ (d₁ d₂ : Record) (s : List Char), s.length ≤ 10 →
      censorSensitiveData (d₁ ++ (k, some s) :: d₂)
        = censorSensitiveData d₁
          ++ (k, some censorShort) :: censorSensitiveData d₂)
    ∧ (∀ (d₁ d₂ : Record),
      censorSensitiveData (d₁ ++ (k, none) :: d₂)
        = censorSensitiveData d₁ ++ (k, none) :: censorSensitiveData d₂) := by
  refine ⟨?_, ?_, ?_, ?_⟩
  · intro d₁ d₂ s hlen
    simp only [censorSensitiveData, List.map_append, List.map_cons]
    rw [show censorField k (some s)
        = some (s.take 10 ++ censorLong ++ s.drop (s.length - 5)) by
      simp only [censorField]
      rw [if_pos hk, if_pos hlen]]
  · intro d₁ d₂ s hlo hhi
    simp only [censorSensitiveData, List.map_append, List.map_cons]
    rw [show censorField k (some s) = some (s.take 5 ++ censorShort) by
      simp only [censorField]
      rw [if_pos hk, if_neg (by omega), if_pos hlo]]
  · intro d₁ d₂ s hlen
    simp only [censorSensitiveData, List.map_append, List.map_cons]
    rw [show censorField k (some s) = some censorShort by
      simp only [censorField]
      rw [if_pos hk, if_neg (by omega), if_neg (by omega)]]
  · intro d₁ d₂
    simp only [censorSensitiveData, List.map_append, List.map_cons]
    rw [show censorField k none = none from rfl]

/-- Witness: the specification's own example — the field `token` with the
26-character alphabet keeps its first 10 and last 5 characters around the
long marker. -/
theorem C3_redaction_length_bands_witness :
    highSensitive.any (fun sens => containsSub (lowerStr "token".data) sens) = true
    ∧ censorSensitiveData [("token".data, some "abcdefghijklmnopqrstuvwxyz".data)]
        = [("token".data, some "abcdefghij***[SENSITIVE DATA CENSORED]***vwxyz".data)] := by
  refine ⟨by decide, ?_⟩
  have h := (C3_redaction_length_bands "token".data (by decide)).1 [] []
    "abcdefghijklmnopqrstuvwxyz".data (by decide)
  simpa using h

/-! ## Claim C5 -/

def fillerX : List Char := List.replicate 500 'x'

def rC5 : Record := [("name".data, some (fillerX ++ " token limit".data))]

set_option maxRecDepth 100000 in
/-- C5 is false as stated for the optimized analyzer: record `rC5` matches
both the authentication category (keyword `token`) and the usage-limits
category (keyword `limit`), but `_determine_sensitivity_fast` tiers the
authentication Match high (its matched keyword `token` is itself a
high-sensitivity keyword) and the usage-limits Match low (the data string
is truncated to 500 characters before the content check, and `token` sits
beyond the cut). -/
theorem C5_counterexample :
    (classifyOpt authenticationCatOpt "t".data rC5).map MatchData.sensitivity
      = some Sens.high
    ∧ (classifyOpt usageLimitsCatOpt "t".data rC5).map MatchData.sensitivity
      = some Sens.low := by
  constructor
  · decide
  · decide

/-- C5 (amended): for the base analyzer the claim holds — the sensitivity
stored in a Match by `_search_in_table` is `_determine_sensitivity` of the
record alone, so any two Matches of the same record, whatever their
categories or tables, carry the same tier. -/
theorem C5_sensitivity_noninterference (cfg₁ cfg₂ : Category)
    (tn₁ tn₂ : List Char) (r : Record) (m₁ m₂ : MatchData)
    (h₁ : classifyBase cfg₁ tn₁ r = some m₁)
    (h₂ : classifyBase cfg₂ tn₂ r = some m₂) :
    m₁.sensitivity = m₂.sensitivity := by
  unfold classifyBase at h₁ h₂
  by_cases hs₁ : sqlRowSelected cfg₁.keywords r = true
  · by_cases hs₂ : sqlRowSelected cfg₂.keywords r = true
    · rw [if_pos hs₁] at h₁
      rw [if_pos hs₂] at h₂
      have e₁ : m₁ = mkMatchBase cfg₁ tn₁ r := (Option.some.injEq .. ▸ h₁ :).symm
      have e₂ : m₂ = mkMatchBase cfg₂ tn₂ r := (Option.some.injEq .. ▸ h₂ :).symm
      rw [e₁, e₂]
      rfl
    · rw [if_neg hs₂] at h₂
      exact absurd h₂ (by simp)
  · rw [if_neg hs₁] at h₁
    exact absurd h₁ (by simp)

def rTokenPro : Record := [("c".data, some "token pro".data)]

/-- Witness: the record `token pro` matches both authentication and
subscription in the base analyzer, and both Matches carry the same tier. -/
theorem C5_sensitivity_noninterference_witness :
    classifyBase authenticationCat "t".data rTokenPro
      = some (mkMatchBase authenticationCat "t".data rTokenPro)
    ∧ (mkMatchBase authenticationCat "t".data rTokenPro).sensitivity
      = (mkMatchBase subscriptionCat "t".data rTokenPro).sensitivity :=
  ⟨by decide,
   C5_sensitivity_noninterference authenticationCat subscriptionCat
     "t".data "t".data rTokenPro _ _ (by decide) (by decide)⟩

/-! ## Claim C6 -/

/-- C6: applying `_censor_sensitive_data` to a record none of whose column
names contains a high-sensitivity keyword returns the record unchanged. -/
theorem C6_redaction_identity (d : Record)
    (h : ∀ kv ∈ d, highSensitive.any (fun sens => containsSub (lowerStr kv.1) sens) = false) :
    censorSensitiveData d = d := by
  induction d with
  | nil => rfl
  | cons kv rest ih =>
    obtain ⟨k, v⟩ := kv
    have hk := h (k, v) (List.mem_cons_self _ _)
    have hrest : censorSensitiveData rest = rest :=
      ih fun kv hkv => h kv (List.mem_cons_of_mem _ hkv)
    cases v with
    | none =>
      show (k, censorField k none) :: censorSensitiveData rest = (k, none) :: rest
      rw [hrest]
      rfl
    | some s =>
      show (k, censorField k (some s)) :: censorSensitiveData rest = (k, some s) :: rest
      rw [hrest]
      simp only [censorField]
      rw [if_neg (by simp [hk])]

/-- Witness: a subscription-style record passes through redaction
unchanged. -/
theorem C6_redaction_identity_witness :
    (∀ kv ∈ ([("plan".data, some "pro".data), ("c".data, (none : Value))] : Record),
      highSensitive.any (fun sens => containsSub (lowerStr kv.1) sens) = false)
    ∧ censorSensitiveData [("plan".data, some "pro".data), ("c".data, none)]
      = [("plan".data, some "pro".data), ("c".data, none)] :=
  ⟨by decide, C6_redaction_identity _ (by decide)⟩

/-! ## Claim C4 — batched scanning of the optimized analyzer -/

/-- Per-category accumulation state (`category_matches` /
`self.results['keywords']`): buckets in taxonomy order. -/
abbrev Buckets := List (Category × List MatchData)

/-- `_process_batch`: rows of one batch are processed in order; each row
appends, for every category whose keywords match it, one entry to that
category's bucket. -/
def processBatch (tn : List Char) : List Record → Buckets → Buckets
  | [], acc => acc
  | r :: rs, acc =>
    processBatch tn rs
      (acc.map fun cb =>
        match classifyOpt cb.1 tn r with
        | some m => (cb.1, cb.2 ++ [m])
        | none => cb)

/-- The OFFSET/LIMIT batching of `_search_table_optimized`: consecutive
chunks of `n` rows; with batch size 0 the first batch is empty and the
loop stops at once, processing nothing. -/
def chunkList (n : Nat) : List α → List (List α)
  | [] => []
  | x :: xs =>
    if n = 0 then []
    else (x :: xs.take (n - 1)) :: chunkList n (xs.drop (n - 1))
termination_by l => l.length
decreasing_by
  simp only [List.length_drop, List.length_cons]
  omega

/-- The batch loop of `_search_table_optimized`. -/
def searchTableOptimized (tn : List Char) (batchSize : Nat) (rows : List Record)
    (acc : Buckets) : Buckets :=
  (chunkList batchSize rows).foldl (fun a b => processBatch tn b a) acc

theorem processBatch_append (tn : List Char) :
    ∀ (xs ys : List Record) (acc : Buckets),
      processBatch tn (xs ++ ys) acc = processBatch tn ys (processBatch tn xs acc) := by
  intro xs
  induction xs with
  | nil => intro ys acc; rfl
  | cons r rs ih =>
    intro ys acc
    simp only [List.cons_append, processBatch]
    exact ih ys _

theorem searchTableOptimized_eq_aux (tn : List Char) (n : Nat) (hn : 1 ≤ n) :
    ∀ (k : Nat) (rows : List Record), rows.length ≤ k → ∀ acc : Buckets,
      (chunkList n rows).foldl (fun a b => processBatch tn b a) acc
        = processBatch tn rows acc := by
  intro k
  induction k with
  | zero =>
    intro rows h acc
    have : rows = [] := List.eq_nil_of_length_eq_zero (Nat.le_zero.mp h)
    subst this
    simp [chunkList, processBatch]
  | succ k ih =>
    intro rows h acc
    cases rows with
    | nil => simp [chunkList, processBatch]
    | cons x xs =>
      have hn0 : ¬ n = 0 := by omega
      unfold chunkList
      rw [if_neg hn0]
      simp only [List.foldl_cons]
      rw [ih (xs.drop (n - 1)) (by simp only [List.length_drop]; simp only [List.length_cons] at h; omega) _]
      rw [← processBatch_append]
      rw [List.cons_append, List.take_append_drop]

/-- C4: splitting a fixed row sequence into consecutive batches of any
size N ≥ 1 yields exactly the buckets of the one-pass scan (hence
identical per-category Match lists and identical sensitivity counts). -/
theorem C4_batch_invariance (tn : List Char) (rows : List Record) (acc : Buckets)
    (batchSize : Nat) (h : 1 ≤ batchSize) :
    searchTableOptimized tn batchSize rows acc = processBatch tn rows acc
    ∧ ∀ t : Sens,
        (((searchTableOptimized tn batchSize rows acc).map Prod.snd).flatten.filter
          (fun m => m.sensitivity == t)).length
        = (((processBatch tn rows acc).map Prod.snd).flatten.filter
          (fun m => m.sensitivity == t)).length := by
  have he : searchTableOptimized tn batchSize rows acc = processBatch tn rows acc :=
    searchTableOptimized_eq_aux tn batchSize h rows.length rows le_rfl acc
  exact ⟨he, fun t => by rw [he]⟩

def initBucketsOpt : Buckets := targetKeywordsOpt.map fun c => (c, [])

/-- Witness: three concrete rows scanned in batches of two equal the
one-pass scan. -/
theorem C4_batch_invariance_witness :
    1 ≤ 2
    ∧ searchTableOptimized "tbl".data 2 [rTokenPro, rAuth, [("c".data, none)]] initBucketsOpt
      = processBatch "tbl".data [rTokenPro, rAuth, [("c".data, none)]] initBucketsOpt :=
  ⟨by decide,
   (C4_batch_invariance "tbl".data [rTokenPro, rAuth, [("c".data, none)]]
     initBucketsOpt 2 (by decide)).1⟩

/-! ## Claim C7 — per-table error containment

The try/except of `_search_in_table` is embedded by making the fallible
SQLite calls explicit.  The `try` block covers the `PRAGMA table_info`
introspection followed by one SELECT per category, so an exception can
strike before anything was appended (introspection) or between the
per-category queries; `category_matches` is returned in either case, so a
mid-table error keeps the matches of the categories already processed.
The except-branch prints one warning, and `search_keywords` merges the
returned (possibly partial) result and goes on with the next table. -/

inductive TableSource where
  | tbl (name : List Char) (rows : List Record)
  | introFail (name : List Char) (msg : List Char)
  | queryFail (name : List Char) (rows : List Record) (failAt : Nat) (msg : List Char)

/-- The per-category loop body of `_search_in_table` over the categories
that are actually processed, in taxonomy order. -/
def scanCats (n : List Char) (rows : List Record) (cfgs : List Category) :
    List MatchData :=
  (cfgs.map fun cfg => rows.filterMap (classifyBase cfg n)).flatten

/-- One table of the scan, as `_search_in_table` returns it: a fully
readable table yields every category's matches and no warning; a table
whose introspection raises yields no matches and one warning; a table
whose SELECT for category number `failAt` raises yields the matches of the
`failAt` categories already processed and one warning.  The error itself
is consumed by the except-branch in every case. -/
def scanTable (cfgs : List Category) (t : TableSource) :
    List MatchData × List (List Char × List Char) :=
  match t with
  | .tbl n rows => (scanCats n rows cfgs, [])
  | .introFail n msg => ([], [(n, msg)])
  | .queryFail n rows failAt msg => (scanCats n rows (cfgs.take failAt), [(n, msg)])

/-- The table loop of `search_keywords`, accumulating matches and
warnings; the return type being a plain pair is the containment — no error
can escape to the caller. -/
def scanAll (cfgs : List Category) (ts : List TableSource) :
    List MatchData × List (List Char × List Char) :=
  ts.foldl
    (fun acc t => (acc.1 ++ (scanTable cfgs t).1, acc.2 ++ (scanTable cfgs t).2))
    ([], [])

theorem scanAll_shift (cfgs : List Category) :
    ∀ (ts : List TableSource) (a : List MatchData)
      (b : List (List Char × List Char)),
      ts.foldl
        (fun acc t => (acc.1 ++ (scanTable cfgs t).1, acc.2 ++ (scanTable cfgs t).2))
        (a, b)
        = (a ++ (scanAll cfgs ts).1, b ++ (scanAll cfgs ts).2) := by
  intro ts
  induction ts with
  | nil => intro a b; simp [scanAll]
  | cons t ts ih =>
    intro a b
    simp only [List.foldl_cons]
    rw [ih]
    unfold scanAll
    simp only [List.foldl_cons, List.nil_append]
    rw [ih (scanTable cfgs t).1 (scanTable cfgs t).2]
    simp only [List.append_assoc, Prod.mk.injEq]
    exact ⟨rfl, rfl⟩

theorem scanAll_append (cfgs : List Category) (l₁ l₂ : List TableSource) :
    scanAll cfgs (l₁ ++ l₂)
      = ((scanAll cfgs l₁).1 ++ (scanAll cfgs l₂).1,
         (scanAll cfgs l₁).2 ++ (scanAll cfgs l₂).2) := by
  unfold scanAll
  rw [List.foldl_append]
  have h := scanAll_shift cfgs l₂ (scanAll cfgs l₁).1 (scanAll cfgs l₁).2
  unfold scanAll at h
  convert h using 2

theorem scanAll_cons (cfgs : List Category) (t : TableSource)
    (ts : List TableSource) :
    scanAll cfgs (t :: ts)
      = ((scanTable cfgs t).1 ++ (scanAll cfgs ts).1,
         (scanTable cfgs t).2 ++ (scanAll cfgs ts).2) := by
  have h := scanAll_shift cfgs ts (scanTable cfgs t).1 (scanTable cfgs t).2
  unfold scanAll
  simp only [List.foldl_cons, List.nil_append]
  unfold scanAll at h
  convert h using 2

/-- C7 is false as stated: the table `t1` errors while its subscription
SELECT runs (category number 1), after the authentication SELECT already
appended a match for the row `token pro`; `_search_in_table`'s except
returns the partially filled `category_matches`, so the erroring table
contributes a Match even though its error was logged as a warning. -/
theorem C7_counterexample :
    (scanTable targetKeywords
        (TableSource.queryFail "t1".data [rTokenPro] 1 "disk error".data)).1 ≠ []
    ∧ (scanTable targetKeywords
        (TableSource.queryFail "t1".data [rTokenPro] 1 "disk error".data)).2
      = [("t1".data, "disk error".data)] := by
  decide

/-- C7 (amended): a table whose scan raises is logged as exactly one
warning at its position, the remainder of that table is skipped — a
column-introspection failure contributes no Matches, while a failure in
the SELECT of category number `failAt` keeps the matches of the `failAt`
categories already processed and nothing beyond — every table before and
after the erroring one is scanned exactly as it would be on its own, and
the scan is a total function, so the error never propagates to the
caller. -/
theorem C7_error_containment (cfgs : List Category) (pre post : List TableSource)
    (n msg : List Char) (rows : List Record) (failAt : Nat) :
    ((scanAll cfgs (pre ++ TableSource.introFail n msg :: post)).1
        = (scanAll cfgs pre).1 ++ (scanAll cfgs post).1
      ∧ (scanAll cfgs (pre ++ TableSource.introFail n msg :: post)).2
        = (scanAll cfgs pre).2 ++ (n, msg) :: (scanAll cfgs post).2)
    ∧ ((scanAll cfgs (pre ++ TableSource.queryFail n rows failAt msg :: post)).1
        = (scanAll cfgs pre).1 ++ scanCats n rows (cfgs.take failAt)
            ++ (scanAll cfgs post).1
      ∧ (scanAll cfgs (pre ++ TableSource.queryFail n rows failAt msg :: post)).2
        = (scanAll cfgs pre).2 ++ (n, msg) :: (scanAll cfgs post).2) := by
  constructor
  · rw [scanAll_append cfgs pre (TableSource.introFail n msg :: post),
      scanAll_cons]
    exact ⟨rfl, rfl⟩
  · rw [scanAll_append cfgs pre (TableSource.queryFail n rows failAt msg :: post),
      scanAll_cons]
    refine ⟨?_, rfl⟩
    show (scanAll cfgs pre).1
        ++ (scanCats n rows (cfgs.take failAt) ++ (scanAll cfgs post).1) = _
    rw [List.append_assoc]

/-! ## Claim C8 — maximum-result cap of the flexible analyzer -/

/-- Match entry of `FlexibleKeywordAnalyzer._search_in_table` (the
wall-clock `match_timestamp` field is not modelled). -/
structure FlexMatch where
  table : List Char
  columns : List (List Char)
  data : Record
  matched_keywords : List (List Char)
deriving DecidableEq, Repr

def mkFlexMatch (kws : List (List Char)) (tn : List Char) (r : Record) : FlexMatch :=
  { table := tn
    columns := r.map Prod.fst
    data := r
    matched_keywords := matchedKeywords kws r }

/-- The row loop of `FlexibleKeywordAnalyzer._search_in_table`: each
SQL-selected row is appended, then the loop breaks as soon as the table's
match list has reached `max_results`. -/
def flexTakeRows (kws : List (List Char)) (tn : List Char) (maxResults : Nat) :
    List Record → List FlexMatch → List FlexMatch
  | [], acc => acc
  | r :: rs, acc =>
    if maxResults ≤ (acc ++ [mkFlexMatch kws tn r]).length then
      acc ++ [mkFlexMatch kws tn r]
    else
      flexTakeRows kws tn maxResults rs (acc ++ [mkFlexMatch kws tn r])

def flexSearchInTable (kws : List (List Char)) (maxResults : Nat) (tn : List Char)
    (rows : List Record) : List FlexMatch :=
  flexTakeRows kws tn maxResults (rows.filter fun r => sqlRowSelected kws r) []

/-- The table loop of `FlexibleKeywordAnalyzer.search_keywords`: the table
is scanned in full (up to the per-table cap), its matches appended, and
only then the total is compared against `max_results`; the loop breaks when
the total has reached it. -/
def flexSearchTables (kws : List (List Char)) (maxResults : Nat) :
    List (List Char × List Record) → List FlexMatch → List FlexMatch
  | [], acc => acc
  | (tn, rows) :: ts, acc =>
    if maxResults ≤ (acc ++ flexSearchInTable kws maxResults tn rows).length then
      acc ++ flexSearchInTable kws maxResults tn rows
    else
      flexSearchTables kws maxResults ts (acc ++ flexSearchInTable kws maxResults tn rows)

def rTok : Record := [("c".data, some "token".data)]

def c8Tables : List (List Char × List Record) :=
  [("t1".data, [rTok]), ("t2".data, [rTok, rTok])]

/-- C8 is false as stated: with bound 2, a first table contributing one
match and a second contributing two leaves three accepted Matches — the
cap is only checked between tables, so the total exceeds the bound. -/
theorem C8_counterexample :
    (flexSearchTables ["token".data] 2 c8Tables []).length = 3
    ∧ 2 < (flexSearchTables ["token".data] 2 c8Tables []).length := by
  decide

theorem flexTakeRows_length_le (kws : List (List Char)) (tn : List Char) (N : Nat) :
    ∀ (rows : List Record) (acc : List FlexMatch),
      (flexTakeRows kws tn N rows acc).length ≤ max (acc.length + 1) N := by
  intro rows
  induction rows with
  | nil =>
    intro acc
    exact le_trans (Nat.le_succ _) (le_max_left _ _)
  | cons r rs ih =>
    intro acc
    unfold flexTakeRows
    by_cases h : N ≤ (acc ++ [mkFlexMatch kws tn r]).length
    · rw [if_pos h]
      rw [List.length_append, List.length_singleton]
      exact le_max_left _ _
    · rw [if_neg h]
      have hstep := ih (acc ++ [mkFlexMatch kws tn r])
      rw [List.length_append, List.length_singleton] at h hstep
      have hle : acc.length + 1 + 1 ≤ N := by omega
      calc (flexTakeRows kws tn N rs (acc ++ [mkFlexMatch kws tn r])).length
          ≤ max (acc.length + 1 + 1) N := hstep
        _ = N := Nat.max_eq_right hle
        _ ≤ max (acc.length + 1) N := le_max_right _ _

theorem flexSearchTables_length_le (kws : List (List Char)) (N : Nat) (hN : 1 ≤ N) :
    ∀ (ts : List (List Char × List Record)) (acc : List FlexMatch),
      acc.length < N → (flexSearchTables kws N ts acc).length ≤ 2 * N - 1 := by
  intro ts
  induction ts with
  | nil =>
    intro acc h
    show acc.length ≤ 2 * N - 1
    omega
  | cons t ts ih =>
    obtain ⟨tn, rows⟩ := t
    intro acc h
    have htm : (flexSearchInTable kws N tn rows).length ≤ N := by
      have hstep := flexTakeRows_length_le kws tn N
        (rows.filter fun r => sqlRowSelected kws r) []
      calc (flexSearchInTable kws N tn rows).length
          ≤ max (List.length ([] : List FlexMatch) + 1) N := hstep
        _ = N := Nat.max_eq_right (by simpa using hN)
    unfold flexSearchTables
    by_cases hc : N ≤ (acc ++ flexSearchInTable kws N tn rows).length
    · rw [if_pos hc]
      rw [List.length_append]
      omega
    · rw [if_neg hc]
      apply ih
      rw [List.length_append] at hc
      rw [List.length_append]
      omega

/-- C8 (amended): the cap is only enforced at table boundaries.  With bound
N ≥ 1 each single table contributes at most N Matches, so the total across
the scan never exceeds 2N − 1 (not N, as the claim states); as soon as the
running total reaches N after some table, every remaining table is skipped;
and the scan is a total function, so no error is raised. -/
theorem C8_result_cap (kws : List (List Char)) (N : Nat)
    (ts : List (List Char × List Record)) (hN : 1 ≤ N) :
    (flexSearchTables kws N ts []).length ≤ 2 * N - 1
    ∧ (∀ (tn : List Char) (rows : List Record)
         (ts' : List (List Char × List Record)) (acc : List FlexMatch),
        N ≤ (acc ++ flexSearchInTable kws N tn rows).length →
        flexSearchTables kws N ((tn, rows) :: ts') acc
          = acc ++ flexSearchInTable kws N tn rows) := by
  constructor
  · exact flexSearchTables_length_le kws N hN ts [] (by simpa using hN)
  · intro tn rows ts' acc hc
    unfold flexSearchTables
    rw [if_pos hc]

/-- Witness instantiating the amended cap bound at the concrete scenario of
the counterexample: three accepted Matches against the bound 2·2 − 1. -/
theorem C8_result_cap_witness :
    1 ≤ 2 ∧ (flexSearchTables ["token".data] 2 c8Tables []).length ≤ 2 * 2 - 1 :=
  ⟨by decide, (C8_result_cap ["token".data] 2 c8Tables (by decide)).1⟩

/-! ## Claim C10 — full-scan accumulation of `KeywordAnalyzer.search_keywords` -/

/-- The mutable results of the base analyzer: the per-category buckets
(`self.results['keywords']`) and the flat list
(`self.results['raw_data']`). -/
structure ResultsState where
  buckets : Buckets
  raw : List MatchData
deriving DecidableEq, Repr

/-- Per-table, per-category result list of `_search_in_table`: the rows
selected by the category's SQL query — in quick mode the query carries
`LIMIT max_items // len(self.target_keywords)`, passed here as `qlimit` —
each yield one match entry. -/
def tableCatMatches (quick : Bool) (qlimit : Nat) (cfg : Category) (tn : List Char)
    (rows : List Record) : List MatchData :=
  let sel := rows.filter fun r => sqlRowSelected cfg.keywords r
  (if quick then sel.take qlimit else sel).map fun r => mkMatchBase cfg tn r

/-- The per-table merge loop of `search_keywords`: for each category in
taxonomy order, the table's matches — truncated in quick mode to the
remaining per-category slots `max(0, max_items - len(bucket))` — are
appended to the category bucket; the second component is everything this
table appends to `raw_data`, in the order appended.  (The source guards the
loop with `if table_total > 0`, which only skips appending empty lists.) -/
def processTableCats (quick : Bool) (maxItems qlimit : Nat) (tn : List Char)
    (rows : List Record) : Buckets → Buckets × List MatchData
  | [] => ([], [])
  | (cfg, bucket) :: rest =>
    let tm0 := tableCatMatches quick qlimit cfg tn rows
    let tm := if quick then tm0.take (maxItems - bucket.length) else tm0
    let pr := processTableCats quick maxItems qlimit tn rows rest
    ((cfg, bucket ++ tm) :: pr.1, tm ++ pr.2)

/-- The table loop of `search_keywords`, including the quick-mode break
before a table once `raw_data` has reached `max_items`. -/
def searchKeywordsLoop (quick : Bool) (maxItems qlimit : Nat) :
    List (List Char × List Record) → ResultsState → ResultsState
  | [], st => st
  | (tn, rows) :: ts, st =>
    if quick = true ∧ maxItems ≤ st.raw.length then st
    else
      let pr := processTableCats quick maxItems qlimit tn rows st.buckets
      searchKeywordsLoop quick maxItems qlimit ts
        { buckets := pr.1, raw := st.raw ++ pr.2 }

theorem processTableCats_perm (quick : Bool) (maxItems qlimit : Nat)
    (tn : List Char) (rows : List Record) :
    ∀ bs : Buckets,
      ((((processTableCats quick maxItems qlimit tn rows bs).1.map Prod.snd).flatten)).Perm
        (((bs.map Prod.snd).flatten)
          ++ (processTableCats quick maxItems qlimit tn rows bs).2) := by
  intro bs
  induction bs with
  | nil => simp [processTableCats]
  | cons cb rest ih =>
    obtain ⟨cfg, bucket⟩ := cb
    simp only [processTableCats, List.map_cons, List.flatten_cons]
    set tm := if quick then
        (tableCatMatches quick qlimit cfg tn rows).take (maxItems - bucket.length)
      else tableCatMatches quick qlimit cfg tn rows with htm
    set pr := processTableCats quick maxItems qlimit tn rows rest with hpr
    simp only [List.append_assoc]
    refine List.Perm.append_left bucket ?_
    have h1 : (tm ++ ((pr.1.map Prod.snd).flatten)).Perm
        (tm ++ (((rest.map Prod.snd).flatten) ++ pr.2)) :=
      List.Perm.append_left tm ih
    have h2 : (tm ++ (((rest.map Prod.snd).flatten) ++ pr.2)).Perm
        (((rest.map Prod.snd).flatten) ++ (tm ++ pr.2)) := by
      rw [← List.append_assoc, ← List.append_assoc]
      exact List.Perm.append_right pr.2 List.perm_append_comm
    exact h1.trans h2

theorem searchKeywordsLoop_perm (quick : Bool) (maxItems qlimit : Nat) :
    ∀ (ts : List (List Char × List Record)) (st : ResultsState),
      st.raw.Perm ((st.buckets.map Prod.snd).flatten) →
      (searchKeywordsLoop quick maxItems qlimit ts st).raw.Perm
        (((searchKeywordsLoop quick maxItems qlimit ts st).buckets.map Prod.snd).flatten) := by
  intro ts
  induction ts with
  | nil => intro st h; exact h
  | cons t ts ih =>
    obtain ⟨tn, rows⟩ := t
    intro st h
    unfold searchKeywordsLoop
    by_cases hq : quick = true ∧ maxItems ≤ st.raw.length
    · rw [if_pos hq]
      exact h
    · rw [if_neg hq]
      apply ih
      exact (List.Perm.append_right _ h).trans
        (processTableCats_perm quick maxItems qlimit tn rows st.buckets).symm

def initBuckets : Buckets := targetKeywords.map fun c => (c, [])

/-- C10 (amended): after any complete scan — in full or quick mode —
`raw_data` is a permutation of the concatenation of the per-category
buckets (raw_data interleaves the categories table by table, the
concatenation groups them by category), so the reported total match count
equals the sum of the per-category counts of the exported summary. -/
theorem C10_aggregate_consistency (quick : Bool) (maxItems qlimit : Nat)
    (tables : List (List Char × List Record)) :
    (searchKeywordsLoop quick maxItems qlimit tables ⟨initBuckets, []⟩).raw.Perm
      (((searchKeywordsLoop quick maxItems qlimit tables
          ⟨initBuckets, []⟩).buckets.map Prod.snd).flatten)
    ∧ (searchKeywordsLoop quick maxItems qlimit tables ⟨initBuckets, []⟩).raw.length
      = (((searchKeywordsLoop quick maxItems qlimit tables
          ⟨initBuckets, []⟩).buckets.map fun cb => cb.2.length)).sum := by
  have hbase : (([] : List MatchData)).Perm ((initBuckets.map Prod.snd).flatten) := by
    simp [initBuckets, targetKeywords]
  have h := searchKeywordsLoop_perm quick maxItems qlimit tables ⟨initBuckets, []⟩ hbase
  refine ⟨h, ?_⟩
  rw [h.length_eq, List.length_flatten, List.map_map]
  rfl

/-- Two tables, each with one row matching both authentication and
subscription. -/
def c10Tables : List (List Char × List Record) :=
  [("t1".data, [rTokenPro]), ("t2".data, [rTokenPro])]

/-- C10 is false as stated: after scanning `c10Tables`, `raw_data` is
authentication(t1), subscription(t1), authentication(t2), subscription(t2)
while the concatenation of the buckets is authentication(t1),
authentication(t2), subscription(t1), subscription(t2) — equal as
multisets, but not the same list. -/
theorem C10_counterexample :
    (searchKeywordsLoop false 1000 166 c10Tables ⟨initBuckets, []⟩).raw
      ≠ (((searchKeywordsLoop false 1000 166 c10Tables
          ⟨initBuckets, []⟩).buckets.map Prod.snd).flatten) := by
  decide

/-! ## Claim C9 — percentage safety of the summary reports

Python's float percentages are modelled over ℚ; a division whose
denominator is zero would raise `ZeroDivisionError`, modelled as `none`. -/

def safeDiv (a b : ℚ) : Option ℚ := if b = 0 then none else some (a / b)

structure SecurityReport where
  total : Nat
  highCount : Nat
  mediumCount : Nat
  highPct : ℚ
  mediumPct : ℚ

/-- `KeywordAnalyzer.generate_security_report`: both tier percentages are
written `(count/total*100) if total_matches > 0 else 0`, so every division
is guarded. -/
def generateSecurityReport (raw : List MatchData) : Option SecurityReport :=
  let total := raw.length
  let hi := (raw.filter fun m => m.sensitivity == Sens.high).length
  let med := (raw.filter fun m => m.sensitivity == Sens.medium).length
  let hp := if 0 < total then (safeDiv (hi : ℚ) (total : ℚ)).map (· * 100) else some 0
  let mp := if 0 < total then (safeDiv (med : ℚ) (total : ℚ)).map (· * 100) else some 0
  match hp, mp with
  | some a, some b =>
    some { total := total, highCount := hi, mediumCount := med,
           highPct := a, mediumPct := b }
  | _, _ => none

/-- The category-distribution loop of
`OptimizedKeywordAnalyzer.generate_comprehensive_report`: for every
nonempty bucket the percentage `len(matches) / total_matches * 100` is
computed with no zero guard.  (The source sorts the buckets by size for
display; the order is irrelevant to the fault and declaration order is kept
here.) -/
def catPctList (total : Nat) : Buckets → Option (List (List Char × ℚ))
  | [] => some []
  | (cfg, ms) :: rest =>
    if ms.isEmpty then catPctList total rest
    else
      match safeDiv (ms.length : ℚ) (total : ℚ) with
      | none => none
      | some q =>
        match catPctList total rest with
        | none => none
        | some l => some ((cfg.name, q * 100) :: l)

structure ComprehensiveReport where
  total : Nat
  highPct : ℚ
  mediumPct : ℚ
  categoryPcts : List (List Char × ℚ)

/-- `OptimizedKeywordAnalyzer.generate_comprehensive_report`: guarded tier
percentages plus the unguarded per-category percentages. -/
def generateComprehensiveReport (st : ResultsState) : Option ComprehensiveReport :=
  let total := st.raw.length
  let hi := (st.raw.filter fun m => m.sensitivity == Sens.high).length
  let med := (st.raw.filter fun m => m.sensitivity == Sens.medium).length
  let hp := if 0 < total then (safeDiv (hi : ℚ) (total : ℚ)).map (· * 100) else some 0
  let mp := if 0 < total then (safeDiv (med : ℚ) (total : ℚ)).map (· * 100) else some 0
  match hp, mp, catPctList total st.buckets with
  | some a, some b, some l =>
    some { total := total, highPct := a, mediumPct := b, categoryPcts := l }
  | _, _, _ => none

theorem catPctList_isSome (total : Nat) :
    ∀ bs : Buckets, (∀ cb ∈ bs, cb.2 ≠ [] → 0 < total) →
      (catPctList total bs).isSome = true := by
  intro bs
  induction bs with
  | nil => intro h; rfl
  | cons cb rest ih =>
    obtain ⟨cfg, ms⟩ := cb
    intro h
    unfold catPctList
    by_cases he : ms.isEmpty
    · rw [if_pos he]
      exact ih fun cb hm => h cb (List.mem_cons_of_mem _ hm)
    · rw [if_neg he]
      have hpos : 0 < total :=
        h (cfg, ms) (List.mem_cons_self _ _) fun hnil =>
          he (by simp [show ms = [] from hnil])
      have hne : ((total : ℚ)) ≠ 0 := by
        have := Nat.pos_iff_ne_zero.mp hpos
        exact_mod_cast this
      rw [show safeDiv ((ms.length : ℚ)) ((total : ℚ))
          = some ((ms.length : ℚ) / (total : ℚ)) by
        unfold safeDiv
        rw [if_neg hne]]
      have hrest := ih fun cb hm => h cb (List.mem_cons_of_mem _ hm)
      rcases Option.isSome_iff_exists.mp hrest with ⟨l, hl⟩
      rw [hl]
      rfl

/-- C9: the security report on the empty accumulator yields a defined
summary with 0% for both tiers; the security report is defined (no
division fault) for every accumulator; the comprehensive report on the
empty accumulator yields 0% tiers and an empty category distribution; and
for every accumulator state satisfying the accumulation invariant (raw
data is the concatenation of the buckets, cf. C10) the comprehensive
report is also defined. -/
theorem C9_percentage_safety :
    (generateSecurityReport []).map (fun rep => (rep.highPct, rep.mediumPct))
      = some (0, 0)
    ∧ (∀ raw : List MatchData, (generateSecurityReport raw).isSome = true)
    ∧ (generateComprehensiveReport ⟨initBuckets, []⟩).map
        (fun rep => (rep.highPct, rep.mediumPct, rep.categoryPcts))
      = some (0, 0, [])
    ∧ (∀ st : ResultsState, st.raw = ((st.buckets.map Prod.snd).flatten) →
        (generateComprehensiveReport st).isSome = true) := by
  refine ⟨by decide, ?_, by decide, ?_⟩
  · intro raw
    unfold generateSecurityReport
    by_cases h : 0 < raw.length
    · have hne : ((raw.length : ℚ)) ≠ 0 := by
        have := Nat.pos_iff_ne_zero.mp h
        exact_mod_cast this
      simp [h, safeDiv, hne]
    · simp [h]
  · intro st hinv
    have hcat : (catPctList st.raw.length st.buckets).isSome = true := by
      by_cases h : 0 < st.raw.length
      · exact catPctList_isSome _ st.buckets fun _ _ _ => h
      · have hraw : st.raw = [] :=
          List.eq_nil_of_length_eq_zero (Nat.eq_zero_of_not_pos h)
        have hfl : ((st.buckets.map Prod.snd).flatten) = [] := by
          rw [← hinv, hraw]
        refine catPctList_isSome _ st.buckets fun cb hm hneb => ?_
        exfalso
        apply hneb
        have hmem : cb.2 ∈ st.buckets.map Prod.snd := List.mem_map_of_mem _ hm
        have := List.flatten_eq_nil_iff.mp hfl
        exact this cb.2 hmem
    unfold generateComprehensiveReport
    rcases Option.isSome_iff_exists.mp hcat with ⟨l, hl⟩
    by_cases h : 0 < st.raw.length
    · have hne : ((st.raw.length : ℚ)) ≠ 0 := by
        have := Nat.pos_iff_ne_zero.mp h
        exact_mod_cast this
      simp [h, safeDiv, hne, hl]
    · simp [h, hl]

/-- Witness instantiating the invariant case of the safety theorem at the
empty accumulator. -/
theorem C9_percentage_safety_witness :
    ((⟨initBuckets, []⟩ : ResultsState).raw
      = (((⟨initBuckets, []⟩ : ResultsState).buckets.map Prod.snd).flatten))
    ∧ (generateComprehensiveReport ⟨initBuckets, []⟩).isSome = true :=
  ⟨by decide, C9_percentage_safety.2.2.2 ⟨initBuckets, []⟩ (by decide)⟩

end CursorAnalyzer
